import Mathlib

/-!
Verification development for the delirium-visualization ingestion pipeline
(`deliriumviz.py`, `deliriumviz_helpers.py`).

The Python source is shallowly embedded: pandas DataFrames become explicit
lists of rows with labelled columns (column axes carrying any number of
header levels, as `pd.read_html` produces one level per header row), Python
`datetime` values become a calendar record plus seconds-past-midnight, and
exceptions become `Except` values — including the `OverflowError` that
`datetime + timedelta(days=1)` raises past `datetime.max`.  The per-day
`while` loop of `corrections_loader` becomes a fuel-indexed recursion whose
fuel provably suffices.  Python float values are carried as exact
rationals; rendering them goes through rounding to the nearest IEEE-754
double and CPython's shortest round-trip decimal representation, both
computed exactly on integers.
-/

namespace DeliriumViz

/-! ## Calendar model (Python `datetime.date` / `datetime.datetime`) -/

/-- Gregorian leap-year test, as used by Python's `datetime`. -/
def isLeap (y : ℕ) : Bool := (y % 4 == 0 && y % 100 != 0) || y % 400 == 0

/-- Length of month `m` in year `y` (months are 1-based). -/
def daysInMonth (y : ℕ) : ℕ → ℕ
  | 2 => if isLeap y then 29 else 28
  | 4 | 6 | 9 | 11 => 30
  | _ => 31

/-- A calendar date. Validity is a separate predicate `Date.Valid`. -/
structure Date where
  y : ℕ
  m : ℕ
  d : ℕ
deriving DecidableEq, Repr

/-- The dates representable by Python's `datetime.date` (year bound aside). -/
def Date.Valid (a : Date) : Prop :=
  1 ≤ a.y ∧ 1 ≤ a.m ∧ a.m ≤ 12 ∧ 1 ≤ a.d ∧ a.d ≤ daysInMonth a.y a.m

instance (a : Date) : Decidable a.Valid := by
  unfold Date.Valid; infer_instance

/-- Lexicographic (chronological) strict order on dates, as Python compares
`date` objects field by field. -/
def Date.ltB (a b : Date) : Bool :=
  a.y < b.y || (a.y == b.y && (a.m < b.m || (a.m == b.m && a.d < b.d)))

/-- Lexicographic order on dates (non-strict). -/
def Date.leB (a b : Date) : Bool := Date.ltB a b || a == b

/-- Cumulative day count before month `m` in a non-leap year. -/
def monthOffset : ℕ → ℕ
  | 1 => 0
  | 2 => 31
  | 3 => 59
  | 4 => 90
  | 5 => 120
  | 6 => 151
  | 7 => 181
  | 8 => 212
  | 9 => 243
  | 10 => 273
  | 11 => 304
  | 12 => 334
  | _ => 0

/-- Days of year `y` that precede month `m`. -/
def daysBeforeMonth (y m : ℕ) : ℕ :=
  monthOffset m + if 3 ≤ m ∧ isLeap y then 1 else 0

/-- Number of leap years in `1..n`. -/
def leaps (n : ℕ) : ℕ := n / 4 + n / 400 - n / 100

/-- Rata-die style day number of a date (monotone chronological index). -/
def Date.toRD (a : Date) : ℕ :=
  365 * (a.y - 1) + leaps (a.y - 1) + daysBeforeMonth a.y a.m + a.d

/-- Successor date, the calendar step behind `datetime + timedelta(days=1)`.
This is the pure calendar function; the Python-level bound — the addition
raises `OverflowError` when the operand is already `datetime.max`'s date
`9999-12-31` — is modelled by `addDayChecked` below. -/
def nextDate (a : Date) : Date :=
  if a.d + 1 ≤ daysInMonth a.y a.m then ⟨a.y, a.m, a.d + 1⟩
  else if a.m + 1 ≤ 12 then ⟨a.y, a.m + 1, 1⟩
  else ⟨a.y + 1, 1, 1⟩

/-- The date of `datetime.max`: no Python `datetime` lies beyond
`9999-12-31`, and stepping a `datetime` at this date by one day raises
`OverflowError`. -/
def dateMax : Date := ⟨9999, 12, 31⟩

/-- A `datetime.datetime`: a date plus seconds past midnight. -/
structure DateTime where
  date : Date
  tod : ℕ
deriving DecidableEq, Repr

/-- Python's `datetime <= datetime` (chronological / lexicographic). -/
def DateTime.leB (a b : DateTime) : Bool :=
  Date.ltB a.date b.date || (a.date == b.date && a.tod ≤ b.tod)

/-- Adding `timedelta(days=1)` to a datetime. -/
def addDay (t : DateTime) : DateTime := ⟨nextDate t.date, t.tod⟩

/-! ## Date normalizer: `_asegurar_datetime` and `strptime("%Y-%m-%d")` -/

/-- Numeric value of an ASCII digit character. -/
def digitVal (c : Char) : ℕ := c.toNat - 48

/-- Base code points of the runs of Unicode decimal digits (category `Nd`,
Unicode 14.0 — the database of CPython 3.11): code point `base + v` is the
digit of value `v`.  CPython's `re` pattern `\d` on a `str` (no `re.ASCII`
flag, as in `_strptime`'s compiled format regex) matches exactly these
characters, and `int()` reads their decimal digit values. -/
def ndBases : List ℕ :=
  [48, 1632, 1776, 1984, 2406, 2534, 2662, 2790, 2918, 3046, 3174, 3302,
    3430, 3558, 3664, 3792, 3872, 4160, 4240, 6112, 6160, 6470, 6608, 6784,
    6800, 6992, 7088, 7232, 7248, 42528, 43216, 43264, 43472, 43504, 43600,
    44016, 65296, 66720, 68912, 69734, 69872, 69942, 70096, 70384, 70736,
    70864, 71248, 71360, 71472, 71904, 72016, 72784, 73040, 73120, 92768,
    92864, 93008, 120782, 120792, 120802, 120812, 120822, 123200, 123632,
    125264, 130032]

/-- Digit value of a Unicode decimal digit (category `Nd`), `none` for any
other character: the reading CPython's `\d` plus `int()` perform. -/
def unicodeDigitVal (c : Char) : Option ℕ :=
  (ndBases.find? (fun b => b ≤ c.toNat && c.toNat < b + 10)).map
    (fun b => c.toNat - b)

/-- Day-of-month field of CPython's `_strptime` for `%d`
(`3[01]|[12]\d|0[1-9]|[1-9]`), required to end the string.  The
alternatives `3[01]`, `0[1-9]` and the one-character `[1-9]` are ASCII
literals, while the second character of `[12]\d` may be any Unicode decimal
digit (`"1٢"` reads as day 12 in CPython).  A two-character shape that
fails never falls back to the one-character alternative: the leftover
character would remain unconverted, which `strptime` rejects. -/
def parseDayEnd : List Char → Option ℕ
  | [a, b] =>
    if a == '3' && (b == '0' || b == '1') then some (30 + digitVal b)
    else if (a == '1' || a == '2') && (unicodeDigitVal b).isSome then
      some (10 * digitVal a + (unicodeDigitVal b).getD 0)
    else if a == '0' && b.isDigit && 1 ≤ digitVal b then some (digitVal b)
    else none
  | [a] => if a.isDigit && 1 ≤ digitVal a then some (digitVal a) else none
  | _ => none

/-- Month field (`1[0-2]|0[1-9]|[1-9]`, ASCII literals only — no `\d`, so
no Unicode digits here) followed by a literal `-` and the day field.  As
for the day, a two-digit month shape never backtracks to the one-digit
alternative (the second digit could not match `-`). -/
def parseMonthDashDay : List Char → Option (ℕ × ℕ)
  | a :: b :: c :: rest =>
    if a.isDigit && b.isDigit then
      if c = '-' && 1 ≤ 10 * digitVal a + digitVal b && 10 * digitVal a + digitVal b ≤ 12 then
        (parseDayEnd rest).map (fun d => (10 * digitVal a + digitVal b, d))
      else none
    else if a.isDigit && b = '-' && 1 ≤ digitVal a then
      (parseDayEnd (c :: rest)).map (fun d => (digitVal a, d))
    else none
  | _ => none

/-- CPython `datetime.strptime(s, "%Y-%m-%d")`: exactly four year digits
(`\d\d\d\d`, each any Unicode decimal digit, read by `int()` at its digit
value — `"٢٠٢٢-07-10"` parses to 2022-07-10 in CPython), then `-`, month,
`-`, day, with the whole string consumed, and the resulting calendar date
validated by the `datetime` constructor.  Returns `none` where CPython
raises `ValueError`. -/
def parseYMDChars : List Char → Option Date
  | a :: b :: c :: d :: '-' :: rest =>
    match unicodeDigitVal a, unicodeDigitVal b, unicodeDigitVal c,
        unicodeDigitVal d with
    | some va, some vb, some vc, some vd =>
      (parseMonthDashDay rest).bind (fun md =>
        let y := 1000 * va + 100 * vb + 10 * vc + vd
        if 1 ≤ y && md.2 ≤ daysInMonth y md.1 then some ⟨y, md.1, md.2⟩
        else none)
    | _, _, _, _ => none
  | _ => none

/-- String-level wrapper for the `strptime` model. -/
def strptimeYMD (s : String) : Option Date := parseYMDChars s.data

/-- Exception kinds relevant to this pipeline. -/
inductive PyErr where
  | valueError
  | typeError
  | keyError
  | invalidIndexError
  | overflowError
deriving DecidableEq, Repr

/-- The input shapes `_asegurar_datetime` can receive: a string, a
`datetime`, a `date`, some other object carrying a `strftime` attribute
(e.g. `datetime.time`), or any object without one. -/
inductive FechaInput where
  | str (s : String)
  | dt (t : DateTime)
  | date (d : Date)
  | objWithStrftime
  | objOther
deriving DecidableEq, Repr

/-- Model of `_asegurar_datetime` (deliriumviz_helpers.py, lines 121-169):
strings go through `strptime("%Y-%m-%d")` re-raising `ValueError`;
`datetime` instances are returned unchanged; objects with a `strftime`
attribute are passed to `datetime.combine`, which accepts exactly `date`
instances (midnight is attached) and raises `TypeError` on anything else
(e.g. `datetime.time`); everything else hits the explicit `TypeError`. -/
def _asegurar_datetime : FechaInput → Except PyErr DateTime
  | .str s =>
    match strptimeYMD s with
    | some d => .ok ⟨d, 0⟩
    | none => .error .valueError
  | .dt t => .ok t
  | .date d => .ok ⟨d, 0⟩
  | .objWithStrftime => .error .typeError
  | .objOther => .error .typeError

/-! ## Cells, column labels and DataFrames (pandas model)

A pandas cell is a string, a number (Python floats are carried as exact
rationals), a parsed timestamp, missing (`NaN`/`None`/`NaT`), or a tuple
of cells.  A column axis carries `levels` header levels — `pd.read_html`
produces one level per header row of the table, so a plain header gives a
flat `Index` (`levels = 1`) and stacked header rows give a `MultiIndex`
with two or more levels — and each label is the list of its per-level
values.  A `MultiIndex` label viewed as a single hashable value is a
tuple, which compares equal to no scalar label, exactly as in Python. -/

/-- A cell / hashable label value.  Python tuples are encoded by the
injective cons encoding `tup`/`tnil` (see `Cell.tupleOf`): two tuples are
equal iff they have equal components, and no tuple equals a scalar. -/
inductive Cell where
  | str (s : String)
  | num (q : ℚ)
  | time (t : DateTime)
  | na
  | tup (a b : Cell)
  | tnil
deriving DecidableEq, Repr

/-- The cell encoding a Python tuple of the given component cells. -/
def Cell.tupleOf : List Cell → Cell
  | [] => Cell.tnil
  | c :: rest => Cell.tup c (Cell.tupleOf rest)

/-- A column axis: the number of header levels and the per-label lists of
level values (each of length `levels`; a flat axis has `levels = 1` and
singleton label lists). -/
structure Cols where
  levels : ℕ
  ls : List (List Cell)
deriving DecidableEq, Repr

/-- A flat (single-level) column axis with the given labels. -/
def Cols.flat (labels : List Cell) : Cols := ⟨1, labels.map (fun c => [c])⟩

/-- A label of an axis with `levels` header levels viewed as a single
hashable value: the scalar itself on a flat axis, the tuple of level
values on a `MultiIndex` — never equal to any scalar, as in Python. -/
def labelCell (levels : ℕ) (l : List Cell) : Cell :=
  if levels ≤ 1 then l.headD Cell.na else Cell.tupleOf l

/-- Labels of the column axis, each viewed as a single hashable value (the
values iterating the pandas column `Index`/`MultiIndex` yields). -/
def Cols.cells (c : Cols) : List Cell := c.ls.map (labelCell c.levels)

def Cols.length (c : Cols) : ℕ := c.cells.length

/-- Membership of a label in the column axis, as Python's
`label in columns` / `set.issubset` iteration sees it. -/
def Cols.memB (c : Cols) (l : Cell) : Bool := c.cells.contains l

/-- Positions of all columns carrying label `l` (pandas duplicates). -/
def Cols.posOf (c : Cols) (l : Cell) : List ℕ :=
  (List.range c.cells.length).filter (fun i => c.cells.getD i Cell.na == l)

/-- A DataFrame: row index labels, column axis, and row-major data. -/
structure DF where
  index : List Cell
  cols : Cols
  data : List (List Cell)
deriving DecidableEq, Repr

/-- pandas `len(df)` / `df.shape[0]`. -/
def DF.nrows (df : DF) : ℕ := df.index.length

def DF.ncols (df : DF) : ℕ := df.cols.length

/-- pandas `df.empty`: some axis has length zero. -/
def DF.emptyB (df : DF) : Bool := df.nrows == 0 || df.ncols == 0

/-- The `RangeIndex 0..n-1` produced by `reset_index` and fresh frames. -/
def rangeCells (n : ℕ) : List Cell := (List.range n).map (fun i => Cell.num i)

/-- `df.T`: the column labels become the index, the index becomes the
(flat) column axis, and the data grid is transposed. -/
def DF.transpose (df : DF) : DF :=
  { index := df.cols.cells
    cols := .flat df.index
    data := (List.range df.cols.cells.length).map
      (fun j => df.data.map (fun row => row.getD j Cell.na)) }

/-- `df[labels]` with a list argument: columns are picked in label-list
order, a duplicated label expanding to all its occurrences. -/
def DF.selectCols (df : DF) (labels : List Cell) : DF :=
  let positions := (labels.map (fun l => df.cols.posOf l)).flatten
  { index := df.index
    cols := .flat (positions.map (fun i => df.cols.cells.getD i Cell.na))
    data := df.data.map (fun row => positions.map (fun i => row.getD i Cell.na)) }

/-- Hour-minute-second component `HH:MM:SS` as seconds past midnight. -/
def parseTime6 : List Char → Option ℕ
  | [h1, h2, ':', m1, m2, ':', s1, s2] =>
    if h1.isDigit && h2.isDigit && m1.isDigit && m2.isDigit &&
        s1.isDigit && s2.isDigit &&
        10 * digitVal h1 + digitVal h2 ≤ 23 &&
        10 * digitVal m1 + digitVal m2 ≤ 59 &&
        10 * digitVal s1 + digitVal s2 ≤ 59 then
      some (3600 * (10 * digitVal h1 + digitVal h2) +
        60 * (10 * digitVal m1 + digitVal m2) +
        (10 * digitVal s1 + digitVal s2))
    else none
  | _ => none

/-- Split at the first space: the date component and the optional rest. -/
def breakAtSpace : List Char → List Char × Option (List Char)
  | [] => ([], none)
  | ' ' :: rest => ([], some rest)
  | c :: rest =>
    let r := breakAtSpace rest
    (c :: r.1, r.2)

/-- The timestamp strings these reports carry (`YYYY-MM-DD` with an
optional ` HH:MM:SS`), the fragment of pandas' datetime parsing this
model covers. -/
def parseTimestampStr (s : String) : Option DateTime :=
  match breakAtSpace s.data with
  | (d, none) => (parseYMDChars d).map (fun dd => ⟨dd, 0⟩)
  | (d, some t) =>
    (parseYMDChars d).bind
      (fun dd => (parseTime6 t).map (fun tt => ⟨dd, tt⟩))

/-- pandas `to_datetime(cell, errors="coerce")`: timestamps pass through,
parseable strings become timestamps, and other cells become `NaT`.  Two
deliberate abstractions, on which no theorem below depends: strings
outside the `YYYY-MM-DD[ HH:MM:SS]` shape these reports carry are mapped
to `NaT` (pandas parses further formats), and numeric cells are mapped to
`NaT` where pandas would read them as epoch offsets.  Every property
proved below treats the coerced values as opaque. -/
def toDatetimeCell : Cell → Cell
  | .time t => .time t
  | .str s =>
    match parseTimestampStr s with
    | some t => .time t
    | none => .na
  | _ => .na

/-- Replace the entry at position `k` by its datetime coercion. -/
def setTimestampAt : ℕ → List Cell → List Cell
  | _, [] => []
  | 0, c :: rest => toDatetimeCell c :: rest
  | i + 1, c :: rest => c :: setTimestampAt i rest

/-- Assignment `df[c] = to_datetime(df[c], errors="coerce")` for the single
column at position `k`. -/
def DF.coerceColAt (df : DF) (k : ℕ) : DF :=
  let d := df.data.map (fun row => setTimestampAt k row)
  { df with data := d }

/-- `pd.concat([df] * n).reset_index(drop=True)`. -/
def DF.repeatReset (df : DF) (n : ℕ) : DF :=
  let d := (List.replicate n df.data).flatten
  { index := rangeCells d.length, cols := df.cols, data := d }

/-- `df.droplevel(0, axis=1)`: strips the top header level of a
multi-level column axis, leaving `levels - 1` levels (a flat `Index` when
exactly two were present); pandas raises `ValueError` on a single-level
axis ("Cannot remove 1 levels from an index with 1 levels"). -/
def DF.droplevel0 (df : DF) : Except PyErr DF :=
  if df.cols.levels ≤ 1 then .error .valueError
  else .ok { df with cols := ⟨df.cols.levels - 1, df.cols.ls.map List.tail⟩ }

/-- The label `reset_index(drop=False)` gives the new index column: the
scalar `"Rail number"` on a flat axis, and on a multi-level axis the tuple
`("Rail number", "", …)` padded with empty strings, as pandas pads it. -/
def railLabel (levels : ℕ) : List Cell :=
  Cell.str "Rail number" :: List.replicate (levels - 1) (Cell.str "")

/-- `df.rename_axis("Rail number").reset_index(drop=False)`: the row index
becomes a leading explicit column labelled by `railLabel`, and the index
is replaced by a fresh range. -/
def DF.railResetIndex (df : DF) : DF :=
  let d := List.zipWith (fun i row => i :: row) df.index df.data
  { index := rangeCells d.length
    cols := ⟨df.cols.levels, railLabel df.cols.levels :: df.cols.ls⟩
    data := d }

/-- `pd.concat(dfs, axis=1)` on `RangeIndex`-ed frames (the only shape the
pair processor feeds it): the outer join on row positions keeps the longest
frame's length and pads the shorter frames with `NaN`.  The frames here
never share a header depth above one (the projection and humidity frames
are flat), and appending a `MultiIndex` to a flat `Index` flattens to an
object `Index` holding the scalar labels and the tuple labels side by
side, which is what taking each frame's `Cols.cells` captures. -/
def concatAxis1 (dfs : List DF) : DF :=
  let n := (dfs.map (fun d => d.data.length)).foldr max 0
  { index := rangeCells n
    cols := .flat ((dfs.map (fun d => d.cols.cells)).flatten)
    data := (List.range n).map (fun i =>
      (dfs.map (fun d => d.data.getD i (List.replicate d.ncols Cell.na))).flatten) }

/-! ## Humidity extractor: `_extraer_humedad` and `re.search((\d+(\.\d+)?)%)` -/

/-- Greedy maximal digit run (the regex `\d+`/`\d*` at one position). -/
def digitRun : List Char → List Char × List Char
  | [] => ([], [])
  | c :: rest =>
    if c.isDigit then
      let r := digitRun rest
      (c :: r.1, r.2)
    else ([], c :: rest)

/-- Attempt of the pattern `(\d+(\.\d+)?)%` anchored at this position,
returning capture group 1.  Shrinking a greedy digit run can never rescue a
failed attempt here (the character after a shortened run is a digit, which
matches neither `.` nor `%`), so the backtracking regex is equivalent to
this deterministic reading. -/
def matchPercentAt (cs : List Char) : Option (List Char) :=
  let r1 := digitRun cs
  if r1.1 = [] then none
  else
    match r1.2 with
    | '%' :: _ => some r1.1
    | '.' :: rest2 =>
      let r2 := digitRun rest2
      if r2.1 = [] then none
      else
        match r2.2 with
        | '%' :: _ => some (r1.1 ++ '.' :: r2.1)
        | _ => none
    | _ => none

/-- `re.search`: leftmost successful attempt position. -/
def searchPercentChars : List Char → Option (List Char)
  | [] => none
  | c :: rest =>
    match matchPercentAt (c :: rest) with
    | some g => some g
    | none => searchPercentChars rest

def searchPercent (s : String) : Option String :=
  (searchPercentChars s.data).map (fun l => String.mk l)

/-- Split the capture group at its decimal point. -/
def splitAtDot (cs : List Char) : List Char × List Char :=
  match cs.span (fun c => c ≠ '.') with
  | (a, []) => (a, [])
  | (a, _ :: b) => (a, b)

def digitsToNat (cs : List Char) : ℕ :=
  cs.foldl (fun acc c => 10 * acc + digitVal c) 0

/-- Python `float` of a matched `D1[.D2]` digit group: the exact decimal
value (these short literals round-trip through IEEE doubles). -/
def pyFloatOfDigits (g : List Char) : ℚ :=
  let p := splitAtDot g
  mkRat (digitsToNat (p.1 ++ p.2)) (10 ^ p.2.length)

/-- Model of `_extraer_humedad` (deliriumviz_helpers.py, lines 89-118): the
document tree is abstracted to the list of `<h3>` text contents, scanned in
order for the first `NN[.N]%` match; no match yields `None`.  The source
catches traversal exceptions into `None`; the model is total. -/
def _extraer_humedad (h3s : List String) : Option ℚ :=
  match h3s with
  | [] => none
  | s :: rest =>
    match searchPercent s with
    | some g => some (pyFloatOfDigits g.data)
    | none => _extraer_humedad rest

/-! ### CPython float rendering

`f"{humidity}%"` renders the Python float: the decimal literal is first
rounded to the nearest IEEE-754 double (`float()`), and `str` then picks
the shortest decimal digit string that round-trips to that double,
presented in fixed notation for decimal exponents in `[-4, 16)` and in
scientific notation outside (`f"{1e16}"` is `"1e+16"`).  All of this is
exact integer arithmetic, computed below: base-2/base-10 floor logarithms
by fuel-bounded division (the fuel `n` always suffices since `n < 2^n`),
round-to-nearest ties-to-even by comparing twice the remainder, and the
shortest-digits search by trying 1 to 17 significant digits against an
exact round-trip check.  The rounding below is the normal-range one:
magnitudes beyond roughly `1.8e308` (where `float()` overflows to `inf`,
rendered `inf`) and subnormal magnitudes below `1e-308` are not modelled —
every property proved below either bounds the value or treats the
rendered cell as opaque. -/

def log2Fuel : ℕ → ℕ → ℕ
  | 0, _ => 0
  | f + 1, n => if 2 ≤ n then log2Fuel f (n / 2) + 1 else 0

/-- `⌊log₂ n⌋` for `n ≥ 1` (the fuel `n` suffices: `n < 2 ^ n`). -/
def natLog2 (n : ℕ) : ℕ := log2Fuel n n

def log10Fuel : ℕ → ℕ → ℕ
  | 0, _ => 0
  | f + 1, n => if 10 ≤ n then log10Fuel f (n / 10) + 1 else 0

/-- `⌊log₁₀ n⌋` for `n ≥ 1`. -/
def natLog10 (n : ℕ) : ℕ := log10Fuel n n

/-- Round `a / b` to the nearest integer, ties to even. -/
def roundHalfEven (a b : ℕ) : ℕ :=
  let n := a / b
  let r := a % b
  if 2 * r < b then n
  else if b < 2 * r then n + 1
  else if n % 2 = 0 then n else n + 1

/-- `⌊log₂ (a / b)⌋` for positive `a`, `b`. -/
def floorLog2N (a b : ℕ) : ℤ :=
  if b ≤ a then (natLog2 (a / b) : ℤ)
  else
    let m := natLog2 (b / a)
    if a * 2 ^ m = b then -(m : ℤ) else -(m : ℤ) - 1

/-- `⌊log₁₀ (a / b)⌋` for positive `a`, `b`. -/
def floorLog10N (a b : ℕ) : ℤ :=
  if b ≤ a then (natLog10 (a / b) : ℤ)
  else
    let m := natLog10 (b / a)
    if a * 10 ^ m = b then -(m : ℤ) else -(m : ℤ) - 1

/-- The exact value of the IEEE-754 double nearest to `a / b` (positive,
taken in the normal range — see the section comment): with
`e = ⌊log₂ (a/b)⌋`, the representable values nearby are the multiples of
`2 ^ (e - 52)`, and the mantissa is rounded to nearest, ties to even. -/
def nearestDoublePos (a b : ℕ) : ℚ :=
  let e := floorLog2N a b
  if 52 ≤ e then
    mkRat (roundHalfEven a (b * 2 ^ (e - 52).toNat) * 2 ^ (e - 52).toNat) 1
  else
    mkRat (roundHalfEven (a * 2 ^ (52 - e).toNat) b) (2 ^ (52 - e).toNat)

/-- Python `float()` of the exact rational `q`: the nearest double.  A
value that is integral with magnitude at most `2 ^ 53` is exactly
representable, so rounding returns it unchanged (the explicit fast path);
otherwise the mantissa rounding above applies. -/
def nearestDouble (q : ℚ) : ℚ :=
  if q.num = 0 then 0
  else if q.den = 1 ∧ q.num.natAbs ≤ 2 ^ 53 then q
  else if q.num < 0 then -nearestDoublePos q.num.natAbs q.den
  else nearestDoublePos q.num.natAbs q.den

/-- Round `a / b` to `p` significant decimal digits (ties to even), given
`t = ⌊log₁₀ (a/b)⌋`: the result read at decimal exponent `t + 1 - p` is
the nearest `p`-digit decimal. -/
def roundSig (a b : ℕ) (t : ℤ) (p : ℕ) : ℕ :=
  let s : ℤ := (p : ℤ) - 1 - t
  if 0 ≤ s then roundHalfEven (a * 10 ^ s.toNat) b
  else roundHalfEven a (b * 10 ^ (-s).toNat)

/-- The rational `cand * 10 ^ e10`. -/
def decValue (cand : ℕ) (e10 : ℤ) : ℚ :=
  if 0 ≤ e10 then mkRat (cand * 10 ^ e10.toNat) 1
  else mkRat cand (10 ^ (-e10).toNat)

/-- First significant-digit count in the given list whose nearest decimal
round-trips to the double value `v = a / b`, with that rounded decimal:
the shortest round-tripping representation `repr` picks.  Every double
round-trips at 17 digits; the fallback keeps the function total. -/
def shortestSigGo (v : ℚ) (a b : ℕ) (t : ℤ) : List ℕ → ℕ × ℕ
  | [] => (17, roundSig a b t 17)
  | p :: rest =>
    if nearestDouble (decValue (roundSig a b t p) (t + 1 - (p : ℤ))) = v then
      (p, roundSig a b t p)
    else shortestSigGo v a b t rest

def shortestSig (v : ℚ) (a b : ℕ) (t : ℤ) : ℕ × ℕ :=
  shortestSigGo v a b t [1, 2, 3, 4, 5, 6, 7, 8, 9, 10, 11, 12, 13, 14, 15, 16, 17]

/-- Decimal digit count of a positive natural. -/
def numDigits (n : ℕ) : ℕ := natLog10 n + 1

def stripZeros : ℕ → ℕ → ℕ
  | 0, n => n
  | f + 1, n => if n ≠ 0 ∧ n % 10 = 0 then stripZeros f (n / 10) else n

/-- Drop trailing decimal zeros (the digits `repr` never prints). -/
def stripTrailingZeros (n : ℕ) : ℕ := stripZeros n n

/-- CPython's exponent suffix: sign always printed, at least two digits. -/
def sciExpStr (e : ℤ) : String :=
  (if e < 0 then "e-" else "e+") ++
    (if e.natAbs < 10 then "0" else "") ++ toString e.natAbs

def zeros (n : ℕ) : String := String.mk (List.replicate n '0')

/-- Present the significant digits `cand` whose leading digit sits at
decimal exponent `dexp`, by CPython's `repr` rules: fixed notation for
`-4 ≤ dexp < 16` (re-padding zeros, `.0` after an integral value),
scientific notation outside. -/
def presentDigits (cand : ℕ) (dexp : ℤ) : String :=
  let ds := toString (stripTrailingZeros cand)
  let L := ds.length
  if -4 ≤ dexp ∧ dexp < 16 then
    if (L : ℤ) - 1 ≤ dexp then
      ds ++ zeros (dexp - ((L : ℤ) - 1)).toNat ++ ".0"
    else if 0 ≤ dexp then
      String.mk (ds.data.take (dexp.toNat + 1)) ++ "." ++
        String.mk (ds.data.drop (dexp.toNat + 1))
    else
      "0." ++ zeros (-dexp - 1).toNat ++ ds
  else
    String.mk (ds.data.take 1) ++
      (if 2 ≤ L then "." ++ String.mk (ds.data.drop 1) else "") ++
      sciExpStr dexp

/-- CPython `str`/`repr`/f-string rendering of the double whose exact
value is `v`: integral magnitudes below `1e16` print as `N.0` (their own
digits round-trip and the fixed presentation re-pads them), everything
else through the shortest round-tripping digits and the notation
thresholds. -/
def pyDoubleStr (v : ℚ) : String :=
  if v.num = 0 then "0.0"
  else if v.den = 1 ∧ v.num.natAbs < 10 ^ 16 then
    (if v.num < 0 then "-" else "") ++ toString v.num.natAbs ++ ".0"
  else
    let a := v.num.natAbs
    let t := floorLog10N a v.den
    let pc := shortestSig (if v.num < 0 then -v else v) a v.den t
    (if v.num < 0 then "-" else "") ++
      presentDigits pc.2 (t + ((numDigits pc.2 : ℤ) - (pc.1 : ℤ)))

/-- `f"{q}"` for the float obtained from the exact decimal value `q`:
round to the nearest double, then render. -/
def pyFloatStr (q : ℚ) : String := pyDoubleStr (nearestDouble q)

/-- The humidity cell written into a block: `f"{humidity}%"` when a value
was extracted, `None` otherwise (deliriumviz_helpers.py, lines 245-249). -/
def humCell (h3s : List String) : Cell :=
  match _extraer_humedad h3s with
  | some q => Cell.str (pyFloatStr q ++ "%")
  | none => Cell.na

/-! ## Table pair processor: `_procesar_tablas` -/

/-- One iteration of the pair loop of `_procesar_tablas`
(deliriumviz_helpers.py, lines 206-257): `.ok none` models a `continue`
(skip), `.error e` an exception stopped by the per-pair handler, and
`.ok (some block)` a contributed block.  The required-column set
`{"Timestamp", "Delay line number"}` is selected here in a fixed order
(CPython set iteration order is unspecified; no property below depends on
the order of these two columns).  A duplicated `Timestamp` label makes
`pd.to_datetime` receive a DataFrame and raise `ValueError`; a missing one
would make column lookup raise `KeyError` (unreachable after the
membership test). -/
def procPair (meta corr : DF) (h3s : List String) : Except PyErr (Option DF) :=
  let n := corr.nrows
  if n = 0 then .ok none
  else
    let t := meta.transpose
    if t.cols.memB (Cell.str "Timestamp") &&
        t.cols.memB (Cell.str "Delay line number") then
      let test_pd := t.selectCols [Cell.str "Timestamp", Cell.str "Delay line number"]
      match test_pd.cols.posOf (Cell.str "Timestamp") with
      | [] => .error .keyError
      | [k] =>
        let test_pd2 := test_pd.coerceColAt k
        if test_pd2.emptyB then .ok none
        else
          let test_pd_repeated := test_pd2.repeatReset n
          match corr.droplevel0 with
          | .error e => .error e
          | .ok c1 =>
            let tabla_correcciones := c1.railResetIndex
            let hdf : DF :=
              { index := rangeCells n
                cols := .flat [Cell.str "Tunnel Relative Humidity"]
                data := List.replicate n [humCell h3s] }
            .ok (some (concatAxis1 [test_pd_repeated, hdf, tabla_correcciones]))
      | _ :: _ :: _ => .error .valueError
    else .ok none

/-- `range(0, len(tablas) - 1, 2)`: consecutive pairs, an unpaired trailing
table dropped. -/
def pairUp : List DF → List (DF × DF)
  | a :: b :: rest => (a, b) :: pairUp rest
  | _ => []

/-- The contribution of one pair to the result list: one block, or nothing
when the pair was skipped or its exception was caught. -/
def pairBlocks (mc : DF × DF) (h3s : List String) : List DF :=
  match procPair mc.1 mc.2 h3s with
  | .ok (some b) => [b]
  | _ => []

/-- Model of `_procesar_tablas` (deliriumviz_helpers.py, lines 175-262). -/
def _procesar_tablas (tablas : List DF) (h3s : List String) : List DF :=
  ((pairUp tablas).map (fun mc => pairBlocks mc h3s)).flatten

/-! ## Report locator and entry point: `corrections_loader` -/

/-- The parsed content of one report file: its extracted tables (empty when
`pd.read_html` failed, as `_leer_tablas` catches that into `[]`) and the
text contents of its `<h3>` headings. -/
structure FileContent where
  tables : List DF
  h3s : List String
deriving DecidableEq, Repr

/-- A filesystem: paths (component lists relative to the project base
directory) to parsed file contents; `none` where no file exists. -/
def FS : Type := List String → Option FileContent

/-- Zero-padded two-digit rendering (`strftime("%m")` / `"%d"`). -/
def pad2 (n : ℕ) : List Char :=
  [Nat.digitChar (n / 10 % 10), Nat.digitChar (n % 10)]

/-- Four-digit year rendering of `strftime("%Y")`: exact for years 1000
to 9999, which covers the reports this pipeline locates.  Below 1000
CPython delegates `%Y` to the platform, which may print the year without
padding (glibc does); that fringe only moves which single per-day path is
consulted and is not relied on below. -/
def pad4 (n : ℕ) : List Char :=
  [Nat.digitChar (n / 1000 % 10), Nat.digitChar (n / 100 % 10),
    Nat.digitChar (n / 10 % 10), Nat.digitChar (n % 10)]

/-- `fecha_actual.strftime("%Y-%m-%d")`. -/
def renderYMD (a : Date) : List Char :=
  pad4 a.y ++ '-' :: (pad2 a.m ++ '-' :: pad2 a.d)

/-- `DATA_DIR / anio / mes / f"{NOMBRE_BASE}_{fecha_str}.html"` relative to
the project base directory: the single path the loader consults for a
given day (deliriumviz.py, line 127). -/
def canonicalPath (a : Date) : List String :=
  ["data", String.mk (pad4 a.y), String.mk (pad2 a.m),
    "corrections_report_" ++ String.mk (renderYMD a) ++ ".html"]

/-- The blocks one day contributes: nothing when the file is absent (the
`path.exists()` test), otherwise the processed pairs of its content.  The
per-file `try` of the source catches read/parse errors; parse failure is
represented by `FileContent.tables = []`. -/
def dayBlocks (fs : FS) (a : Date) : List DF :=
  match fs (canonicalPath a) with
  | none => []
  | some c => _procesar_tablas c.tables c.h3s

/-- `fecha_actual += timedelta(days=1)` with Python's bound: stepping a
`datetime` already at `datetime.max`'s date raises `OverflowError`. -/
def addDayChecked (t : DateTime) : Except PyErr DateTime :=
  if t.date = dateMax then .error .overflowError else .ok (addDay t)

/-- The `while fecha_actual <= fecha_fin` scan, fuel-indexed (`loopFuel`
below always suffices: each step advances the rata-die index by one).
The increment runs at the end of every iteration body — including the
last one — so a range whose days reach `9999-12-31` raises
`OverflowError` out of the loop; the error is uncaught in
`corrections_loader` and discards all accumulated blocks. -/
def loopGo (fs : FS) (fin : DateTime) : ℕ → DateTime → Except PyErr (List DF)
  | 0, _ => .ok []
  | fuel + 1, cur =>
    if cur.leB fin then
      match addDayChecked cur with
      | .error e => .error e
      | .ok next =>
        match loopGo fs fin fuel next with
        | .error e => .error e
        | .ok rest => .ok (dayBlocks fs cur.date ++ rest)
    else .ok []

def loopFuel (start fin : DateTime) : ℕ := fin.date.toRD + 1 - start.date.toRD

/-- The accumulated `resultados` list of `corrections_loader`, or the
error that escaped the day loop. -/
def loaderBlocks (fs : FS) (start fin : DateTime) : Except PyErr (List DF) :=
  loopGo fs fin (loopFuel start fin) start

/-- The empty `pd.DataFrame()`. -/
def emptyDF : DF := ⟨[], .flat [], []⟩

/-- Reindex one row onto the union column list (labels assumed unique). -/
def alignRow (x : DF) (u : List Cell) (row : List Cell) : List Cell :=
  u.map (fun l =>
    match x.cols.posOf l with
    | p :: _ => row.getD p Cell.na
    | [] => Cell.na)

/-- Union of the column labels across blocks, first-seen order. -/
def unionLabels (blocks : List DF) : List Cell :=
  ((blocks.map (fun x => x.cols.cells)).flatten).dedup

/-- `pd.concat(resultados, ignore_index=True)`: frames with identical
column axes are stacked directly; otherwise pandas aligns each frame on
the union of the column labels, which raises `InvalidIndexError` when some
frame carries duplicate labels. -/
def concatIgnoreIndex (blocks : List DF) : Except PyErr DF :=
  match blocks with
  | [] => .ok emptyDF
  | b :: rest =>
    if rest.all (fun d => d.cols == b.cols) then
      let d := (blocks.map (fun x => x.data)).flatten
      .ok { index := rangeCells d.length, cols := b.cols, data := d }
    else if blocks.all (fun x => decide x.cols.cells.Nodup) then
      let u := unionLabels blocks
      let d := (blocks.map (fun x => x.data.map (fun r => alignRow x u r))).flatten
      .ok { index := rangeCells d.length, cols := .flat u, data := d }
    else .error .invalidIndexError

/-- The tail of `corrections_loader`: stacking, then
`df_final["Timestamp"] = pd.to_datetime(df_final["Timestamp"], errors="coerce")`.
A duplicated `Timestamp` label hands a DataFrame to `to_datetime`, which
raises `ValueError` (missing year/month/day unit columns) regardless of
`errors="coerce"`; an absent label would raise `KeyError`. -/
def finalizeBlocks (blocks : List DF) : Except PyErr DF :=
  match concatIgnoreIndex blocks with
  | .error e => .error e
  | .ok df =>
    match df.cols.posOf (Cell.str "Timestamp") with
    | [] => .error .keyError
    | [k] => .ok (df.coerceColAt k)
    | _ :: _ :: _ => .error .valueError

/-- Model of `corrections_loader` (deliriumviz.py, lines 70-167).  The
timezone round-trip of lines 105-115 only converts through the fixed,
valid `ZoneInfo` names of the module constants and cannot fail, so it is
modelled as a no-op; `st.*` display calls carry no data and are dropped. -/
def corrections_loader (fs : FS) (fecha_inicio fecha_fin : FechaInput) :
    Except PyErr DF :=
  match _asegurar_datetime fecha_inicio with
  | .error e => .error e
  | .ok start =>
    match _asegurar_datetime fecha_fin with
    | .error e => .error e
    | .ok fin =>
      match loaderBlocks fs start fin with
      | .error e => .error e
      | .ok resultados =>
        if resultados.isEmpty then .ok emptyDF
        else finalizeBlocks resultados

/-! ## Concrete fixtures

Small report contents used as concrete inputs: a typical metadata table
(`read_html` with `index_col=0` puts the field names into the index and
leaves one value column), correction tables with two-level and single-level
headers, and single-file filesystems. -/

/-- Metadata table of the shape the reports carry: field names in the
index, one value column. -/
def metaOK : DF :=
  ⟨[Cell.str "Timestamp", Cell.str "Delay line number"],
    .flat [Cell.str "0"],
    [[Cell.str "2022-07-10 08:00:00"], [Cell.num 3]]⟩

/-- Correction table with a grouped (two-level) header and two rows. -/
def corrOK : DF :=
  ⟨[Cell.num 1, Cell.num 2],
    ⟨2, [[Cell.str "Corrections", Cell.str "Value"]]⟩,
    [[Cell.num 5], [Cell.num 7]]⟩

/-- Correction table with a single-level header. -/
def corrFlat : DF :=
  ⟨[Cell.num 1], .flat [Cell.str "Value"], [[Cell.num 5]]⟩

/-- Correction table with a three-level header (three header rows in the
source HTML): `droplevel(0)` keeps two levels, and the rail column label
becomes the padded tuple. -/
def corr3 : DF :=
  ⟨[Cell.num 1],
    ⟨3, [[Cell.str "A", Cell.str "B", Cell.str "Value"]]⟩,
    [[Cell.num 5]]⟩

/-- Metadata table carrying two value columns: its transposed projection
has two rows. -/
def metaWide : DF :=
  ⟨[Cell.str "Timestamp", Cell.str "Delay line number"],
    .flat [Cell.str "0", Cell.str "1"],
    [[Cell.str "2022-07-10 08:00:00", Cell.str "2022-07-10 09:00:00"],
      [Cell.num 3, Cell.num 4]]⟩

/-- One-row correction table with a two-level header. -/
def corr1 : DF :=
  ⟨[Cell.num 1], ⟨2, [[Cell.str "C", Cell.str "Value"]]⟩, [[Cell.num 5]]⟩

/-- A valid report: one metadata/correction pair and a humidity heading. -/
def goodFile : FileContent :=
  ⟨[metaOK, corrOK], ["Relative humidity: 45.3%"]⟩

/-- Filesystem with one valid report at the canonical location for a date. -/
def singleFs (a : Date) (c : FileContent) : FS :=
  fun p => if p = canonicalPath a then some c else none

/-- Filesystem with one valid report directly under `data/`, matching the
naming contract but not at the per-day canonical depth. -/
def fsShallow : FS :=
  fun p =>
    if p = ["data", "corrections_report_2022-07-10.html"] then some goodFile
    else none

/-- Metadata table lacking the `Delay line number` field. -/
def metaNoDL : DF :=
  ⟨[Cell.str "Timestamp"], .flat [Cell.str "0"],
    [[Cell.str "2022-07-10 08:00:00"]]⟩

/-- The block of a successful pair, `emptyDF` otherwise. -/
def extractBlock (e : Except PyErr (Option DF)) : DF :=
  match e with
  | .ok (some b) => b
  | _ => emptyDF

/-- The concrete block the typical pair produces. -/
def c3Block : DF :=
  extractBlock (procPair metaOK corrOK ["Relative humidity: 45.3%"])

/-- The spec's required text shape read literally: exactly four year
digits, a dash, two month digits, a dash, two day digits.  This definition
follows the spec's words, for comparison with the source's `strptime`
behaviour. -/
def specPatternYMD (s : String) : Bool :=
  match s.data with
  | [y1, y2, y3, y4, '-', m1, m2, '-', d1, d2] =>
    y1.isDigit && y2.isDigit && y3.isDigit && y4.isDigit &&
      m1.isDigit && m2.isDigit && d1.isDigit && d2.isDigit
  | _ => false

deriving instance DecidableEq for Except

/-! ## Calendar and order lemmas -/

/-! ### Calendar lemmas -/

theorem leaps_succ (n : ℕ) :
    leaps (n + 1) = leaps n + (if isLeap (n + 1) then 1 else 0) := by
  unfold leaps
  by_cases hc : isLeap (n + 1) = true
  · rw [if_pos hc]
    simp [isLeap] at hc
    omega
  · rw [if_neg hc]
    simp [isLeap] at hc
    omega

theorem one_le_daysInMonth (y m : ℕ) : 1 ≤ daysInMonth y m := by
  unfold daysInMonth
  split <;> first | omega | (split <;> omega)

theorem daysInMonth_le (y m : ℕ) : daysInMonth y m ≤ 31 := by
  unfold daysInMonth
  split <;> first | omega | (split <;> omega)

theorem daysBeforeMonth_succ (y m : ℕ) (h1 : 1 ≤ m) (h2 : m ≤ 11) :
    daysBeforeMonth y (m + 1) = daysBeforeMonth y m + daysInMonth y m := by
  interval_cases m <;> rcases h : isLeap y <;>
    simp [daysBeforeMonth, monthOffset, daysInMonth, h]

theorem daysBeforeMonth_12 (y : ℕ) :
    daysBeforeMonth y 12 = 334 + (if isLeap y then 1 else 0) := by
  rcases h : isLeap y <;> simp [daysBeforeMonth, monthOffset, h]

theorem leaps_pred (y : ℕ) (hy : 1 ≤ y) :
    leaps y = leaps (y - 1) + (if isLeap y then 1 else 0) := by
  have h := leaps_succ (y - 1)
  have h1 : y - 1 + 1 = y := by omega
  rw [h1] at h
  exact h

theorem toRD_nextDate (a : Date) (ha : a.Valid) :
    (nextDate a).toRD = a.toRD + 1 := by
  obtain ⟨hy, hm1, hm2, hd1, hd2⟩ := ha
  unfold nextDate
  split
  · simp only [Date.toRD]; omega
  · split
    · rename_i hd hm
      have hdim : a.d = daysInMonth a.y a.m := by omega
      have hs := daysBeforeMonth_succ a.y a.m hm1 (by omega)
      simp only [Date.toRD]
      omega
    · rename_i hd hm
      have hm12 : a.m = 12 := by omega
      have h31 : daysInMonth a.y a.m = 31 := by rw [hm12]; simp [daysInMonth]
      have hdim : a.d = 31 := by omega
      have hdbm := daysBeforeMonth_12 a.y
      have hls := leaps_pred a.y hy
      have hdbm1 : daysBeforeMonth (a.y + 1) 1 = 0 := by
        simp [daysBeforeMonth, monthOffset]
      simp only [Date.toRD, hm12, Nat.add_sub_cancel]
      rcases h : isLeap a.y <;> simp only [h, if_true, if_false] at hdbm hls <;>
        simp at hdbm hls <;> omega

theorem nextDate_valid (a : Date) (ha : a.Valid) : (nextDate a).Valid := by
  obtain ⟨hy, hm1, hm2, hd1, hd2⟩ := ha
  unfold nextDate
  split
  · rename_i h
    exact ⟨hy, hm1, hm2, Nat.succ_le_succ (Nat.zero_le a.d), h⟩
  · split
    · rename_i hd hm
      exact ⟨hy, Nat.succ_le_succ (Nat.zero_le a.m), hm, le_refl 1,
        one_le_daysInMonth a.y (a.m + 1)⟩
    · exact ⟨Nat.succ_le_succ (Nat.zero_le a.y), le_refl 1,
        (show (1 : ℕ) ≤ 12 by omega), le_refl 1,
        one_le_daysInMonth (a.y + 1) 1⟩

theorem leaps_mono (n1 n2 : ℕ) (hle : n1 ≤ n2) : leaps n1 ≤ leaps n2 := by
  induction n2 with
  | zero =>
    have h0 : n1 = 0 := by omega
    subst h0
    exact le_refl _
  | succ k ih =>
    rcases Nat.lt_or_ge n1 (k + 1) with hlt | hge
    · have h1 := ih (by omega)
      have h2 := leaps_succ k
      split at h2 <;> omega
    · have heq : n1 = k + 1 := by omega
      subst heq
      exact le_refl _

theorem daysBeforeMonth_mono (y m1 m2 : ℕ) (h1 : 1 ≤ m1) (h2 : m1 ≤ m2)
    (h3 : m2 ≤ 12) : daysBeforeMonth y m1 ≤ daysBeforeMonth y m2 := by
  have h4 : m1 ≤ 12 := le_trans h2 h3
  have hmo : monthOffset m1 ≤ monthOffset m2 := by
    interval_cases m1 <;> interval_cases m2 <;> decide
  unfold daysBeforeMonth
  rcases hl : isLeap y
  · simp [hl]
    omega
  · simp only [hl, and_true]
    split <;> split <;> omega

theorem daysBeforeMonth_lt (y m1 m2 : ℕ) (h1 : 1 ≤ m1) (h2 : m1 < m2)
    (h3 : m2 ≤ 12) :
    daysBeforeMonth y m1 + daysInMonth y m1 ≤ daysBeforeMonth y m2 := by
  have hs := daysBeforeMonth_succ y m1 h1 (by omega)
  have hm := daysBeforeMonth_mono y (m1 + 1) m2 (by omega) (by omega) h3
  omega

theorem dayOfYear_ub (y m d : ℕ) (h1 : 1 ≤ m) (h2 : m ≤ 12)
    (h3 : d ≤ daysInMonth y m) :
    daysBeforeMonth y m + d ≤ 365 + (if isLeap y then 1 else 0) := by
  have h12 := daysBeforeMonth_12 y
  rcases Nat.lt_or_ge m 12 with hm | hm
  · have hs := daysBeforeMonth_lt y m 12 h1 hm (le_refl 12)
    omega
  · have hm12 : m = 12 := by omega
    subst hm12
    have h31 : daysInMonth y 12 = 31 := by simp [daysInMonth]
    omega

/-- Chronological order agrees with the rata-die index (strict, forward). -/
theorem toRD_lt_of_ltB (a b : Date) (hav : a.Valid) (hbv : b.Valid)
    (h : Date.ltB a b = true) : a.toRD < b.toRD := by
  obtain ⟨hay, ham1, ham2, had1, had2⟩ := hav
  obtain ⟨hby, hbm1, hbm2, hbd1, hbd2⟩ := hbv
  simp only [Date.ltB, Bool.or_eq_true, Bool.and_eq_true, beq_iff_eq,
    decide_eq_true_eq] at h
  rcases h with hy | ⟨hy, h⟩
  · have hub := dayOfYear_ub a.y a.m a.d ham1 ham2 had2
    have hla := leaps_pred a.y hay
    have hmono := leaps_mono a.y (b.y - 1) (by omega)
    simp only [Date.toRD]
    have h365 : 365 * (a.y - 1) + 365 ≤ 365 * (b.y - 1) := by
      have hstep : a.y - 1 + 1 ≤ b.y - 1 := by omega
      calc 365 * (a.y - 1) + 365 = 365 * (a.y - 1 + 1) := by ring
        _ ≤ 365 * (b.y - 1) := Nat.mul_le_mul_left 365 hstep
    rcases hly : isLeap a.y <;>
      simp only [hly, if_true, if_false] at hub hla <;>
      simp at hub hla <;> omega
  · rcases h with hm | ⟨hm, hd⟩
    · have hlt := daysBeforeMonth_lt b.y a.m b.m ham1 hm hbm2
      rw [hy] at had2
      simp only [Date.toRD, hy]
      omega
    · simp only [Date.toRD, hy, hm]
      omega

theorem toRD_le_of_leB (a b : Date) (hav : a.Valid) (hbv : b.Valid)
    (h : Date.leB a b = true) : a.toRD ≤ b.toRD := by
  simp only [Date.leB, Bool.or_eq_true, beq_iff_eq] at h
  rcases h with h | h
  · exact Nat.le_of_lt (toRD_lt_of_ltB a b hav hbv h)
  · rw [h]

theorem dateLeB_iff (a b : Date) :
    Date.leB a b = true ↔ (Date.ltB a b = true ∨ a = b) := by
  simp [Date.leB]

theorem ltB_total (a b : Date) :
    Date.ltB a b = true ∨ Date.ltB b a = true ∨ a = b := by
  rcases a with ⟨ay, am, ad⟩
  rcases b with ⟨by_, bm, bd⟩
  simp [Date.ltB, Date.mk.injEq]
  omega

theorem ltB_ne (a b : Date) (h : Date.ltB a b = true) : a ≠ b := by
  rcases a with ⟨ay, am, ad⟩
  rcases b with ⟨by_, bm, bd⟩
  simp [Date.ltB] at h
  simp [Date.mk.injEq]
  omega

theorem ltB_leB_trans (a b c : Date) (h1 : Date.ltB a b = true)
    (h2 : Date.leB b c = true) : Date.ltB a c = true := by
  rcases a with ⟨ay, am, ad⟩
  rcases b with ⟨by_, bm, bd⟩
  rcases c with ⟨cy, cm, cd⟩
  simp [Date.ltB, Date.leB, Date.mk.injEq] at *
  omega

theorem leB_trans (a b c : Date) (h1 : Date.leB a b = true)
    (h2 : Date.leB b c = true) : Date.leB a c = true := by
  rcases a with ⟨ay, am, ad⟩
  rcases b with ⟨by_, bm, bd⟩
  rcases c with ⟨cy, cm, cd⟩
  simp [Date.ltB, Date.leB, Date.mk.injEq] at *
  omega

theorem leB_refl (a : Date) : Date.leB a a = true := by
  simp [Date.leB]

theorem leB_nextDate (a : Date) : Date.leB a (nextDate a) = true := by
  rcases a with ⟨ay, am, ad⟩
  unfold nextDate
  split
  · simp [Date.leB, Date.ltB]
  · split <;> simp [Date.leB, Date.ltB, Date.mk.injEq]

theorem date_leB_of_leB (a b : DateTime) (h : a.leB b = true) :
    Date.leB a.date b.date = true := by
  simp [DateTime.leB] at h
  rcases h with h | ⟨h, _⟩
  · simp [Date.leB, h]
  · simp [Date.leB, h]

/-- Valid dates with equal rata-die index are equal. -/
theorem eq_of_toRD_eq (a b : Date) (hav : a.Valid) (hbv : b.Valid)
    (h : a.toRD = b.toRD) : a = b := by
  rcases ltB_total a b with hlt | hlt | heq
  · have := toRD_lt_of_ltB a b hav hbv hlt
    omega
  · have := toRD_lt_of_ltB b a hbv hav hlt
    omega
  · exact heq

theorem leB_of_toRD_le (a b : Date) (hav : a.Valid) (hbv : b.Valid)
    (h : a.toRD ≤ b.toRD) : Date.leB a b = true := by
  rcases ltB_total a b with hlt | hlt | heq
  · exact (dateLeB_iff a b).mpr (Or.inl hlt)
  · have := toRD_lt_of_ltB b a hbv hav hlt
    omega
  · exact (dateLeB_iff a b).mpr (Or.inr heq)



theorem leB_ltB_trans (a b c : Date) (h1 : Date.leB a b = true)
    (h2 : Date.ltB b c = true) : Date.ltB a c = true := by
  rcases a with ⟨ay, am, ad⟩
  rcases b with ⟨by_, bm, bd⟩
  rcases c with ⟨cy, cm, cd⟩
  simp only [Date.ltB, Date.leB, Date.mk.injEq, Bool.or_eq_true,
    Bool.and_eq_true, beq_iff_eq, decide_eq_true_eq] at *
  omega

/-- A day inside the scanned range lies strictly before `datetime.max`'s
date whenever the end bound does, so its increment cannot overflow. -/
theorem ne_dateMax_of_le (cur fin : DateTime) (hle : cur.leB fin = true)
    (hmax : Date.ltB fin.date dateMax = true) : cur.date ≠ dateMax :=
  ltB_ne cur.date dateMax
    (leB_ltB_trans cur.date fin.date dateMax (date_leB_of_leB cur fin hle) hmax)

/-- When the end bound lies strictly before `datetime.max`'s date, the
scan never overflows: it returns a block list. -/
theorem loopGo_ok (fs : FS) (fin : DateTime)
    (hmax : Date.ltB fin.date dateMax = true) :
    ∀ (fuel : ℕ) (cur : DateTime), ∃ rs, loopGo fs fin fuel cur = .ok rs := by
  intro fuel
  induction fuel with
  | zero => intro cur; exact ⟨[], rfl⟩
  | succ k ih =>
    intro cur
    by_cases hle : cur.leB fin = true
    · have hne := ne_dateMax_of_le cur fin hle hmax
      obtain ⟨rs, hrs⟩ := ih (addDay cur)
      refine ⟨dayBlocks fs cur.date ++ rs, ?_⟩
      simp [loopGo, hle, addDayChecked, hne, hrs]
    · exact ⟨[], by simp [loopGo, hle]⟩

/-- The first visited day heads the block list when the range is nonempty
and stays below the overflow boundary. -/
theorem loopGo_first (fs : FS) (fin : DateTime) (fuel : ℕ) (cur : DateTime)
    (hf : 1 ≤ fuel) (hle : cur.leB fin = true)
    (hmax : Date.ltB fin.date dateMax = true) :
    ∃ post, loopGo fs fin fuel cur = .ok (dayBlocks fs cur.date ++ post) := by
  rcases fuel with _ | k
  · omega
  · have hne := ne_dateMax_of_le cur fin hle hmax
    obtain ⟨rs, hrs⟩ := loopGo_ok fs fin hmax k (addDay cur)
    exact ⟨rs, by simp [loopGo, hle, addDayChecked, hne, hrs]⟩

/-- With sufficient fuel, the scan reaches the end date when the start's
time of day does not exceed the end's (below the overflow boundary). -/
theorem loopGo_reaches (fs : FS) (fin : DateTime)
    (hmax : Date.ltB fin.date dateMax = true) :
    ∀ (fuel : ℕ) (cur : DateTime), cur.date.Valid → fin.date.Valid →
    fin.date.toRD + 1 ≤ cur.date.toRD + fuel →
    cur.leB fin = true → cur.tod ≤ fin.tod →
    ∃ pre post,
      loopGo fs fin fuel cur = .ok (pre ++ dayBlocks fs fin.date ++ post) := by
  intro fuel
  induction fuel with
  | zero =>
    intro cur hcv hfv hfuel hle htod
    have hdle := date_leB_of_leB cur fin hle
    have := toRD_le_of_leB cur.date fin.date hcv hfv hdle
    omega
  | succ k ih =>
    intro cur hcv hfv hfuel hle htod
    have hne := ne_dateMax_of_le cur fin hle hmax
    have had : addDayChecked cur = .ok (addDay cur) := by
      unfold addDayChecked
      rw [if_neg hne]
    by_cases heq : cur.date = fin.date
    · obtain ⟨rs, hrs⟩ := loopGo_ok fs fin hmax k (addDay cur)
      refine ⟨[], rs, ?_⟩
      simp [loopGo, hle, had, hrs, heq]
    · have hdle := date_leB_of_leB cur fin hle
      have hlt : Date.ltB cur.date fin.date = true := by
        rcases (dateLeB_iff cur.date fin.date).mp hdle with h | h
        · exact h
        · exact absurd h heq
      have hrdlt := toRD_lt_of_ltB cur.date fin.date hcv hfv hlt
      have hnv : (nextDate cur.date).Valid := nextDate_valid cur.date hcv
      have hnrd : (nextDate cur.date).toRD = cur.date.toRD + 1 :=
        toRD_nextDate cur.date hcv
      have hnle : (addDay cur).leB fin = true := by
        have hndle : Date.leB (nextDate cur.date) fin.date = true := by
          apply leB_of_toRD_le _ _ hnv hfv
          omega
        rcases (dateLeB_iff _ _).mp hndle with h | h
        · simp [DateTime.leB, addDay, h]
        · simp [DateTime.leB, addDay, h]
          right
          exact htod
      obtain ⟨pre, post, hrec⟩ := ih (addDay cur) hnv hfv (by simp [addDay]; omega)
        hnle htod
      refine ⟨dayBlocks fs cur.date ++ pre, post, ?_⟩
      simp [loopGo, hle, had, hrec]

/-- A range whose days reach `datetime.max`'s date overflows: the
increment at the end of that day's iteration raises, and the uncaught
error escapes the loop, discarding every accumulated block. -/
theorem loopGo_overflow (fs : FS) (fin : DateTime) (hfd : fin.date = dateMax) :
    ∀ (fuel : ℕ) (cur : DateTime), cur.date.Valid →
    fin.date.toRD + 1 ≤ cur.date.toRD + fuel →
    cur.leB fin = true → cur.tod ≤ fin.tod →
    loopGo fs fin fuel cur = .error .overflowError := by
  intro fuel
  induction fuel with
  | zero =>
    intro cur hcv hfuel hle htod
    have hfv : fin.date.Valid := by rw [hfd]; decide
    have hdle := date_leB_of_leB cur fin hle
    have := toRD_le_of_leB cur.date fin.date hcv hfv hdle
    omega
  | succ k ih =>
    intro cur hcv hfuel hle htod
    have hfv : fin.date.Valid := by rw [hfd]; decide
    by_cases heq : cur.date = fin.date
    · have hcm : cur.date = dateMax := heq.trans hfd
      simp [loopGo, hle, addDayChecked, hcm]
    · have hne : cur.date ≠ dateMax := fun hc => heq (hc.trans hfd.symm)
      have hdle := date_leB_of_leB cur fin hle
      have hlt : Date.ltB cur.date fin.date = true := by
        rcases (dateLeB_iff cur.date fin.date).mp hdle with h | h
        · exact h
        · exact absurd h heq
      have hrdlt := toRD_lt_of_ltB cur.date fin.date hcv hfv hlt
      have hnv : (nextDate cur.date).Valid := nextDate_valid cur.date hcv
      have hnrd : (nextDate cur.date).toRD = cur.date.toRD + 1 :=
        toRD_nextDate cur.date hcv
      have hnle : (addDay cur).leB fin = true := by
        have hndle : Date.leB (nextDate cur.date) fin.date = true := by
          apply leB_of_toRD_le _ _ hnv hfv
          omega
        rcases (dateLeB_iff _ _).mp hndle with h | h
        · simp [DateTime.leB, addDay, h]
        · simp [DateTime.leB, addDay, h]
          right
          exact htod
      have hrec := ih (addDay cur) hnv (by simp [addDay]; omega) hnle htod
      simp [loopGo, hle, addDayChecked, hne, hrec]

/-- A scan over a filesystem empty on every day of the range yields
nothing (when it returns at all). -/
theorem loopGo_empty (fs : FS) (fin : DateTime) :
    ∀ (fuel : ℕ) (cur : DateTime), cur.date.Valid →
    (∀ d : Date, d.Valid → Date.leB cur.date d = true →
      Date.leB d fin.date = true → fs (canonicalPath d) = none) →
    ∀ rs, loopGo fs fin fuel cur = .ok rs → rs = [] := by
  intro fuel
  induction fuel with
  | zero =>
    intro cur _ _ rs h
    simp only [loopGo, Except.ok.injEq] at h
    exact h.symm
  | succ k ih =>
    intro cur hcv hnone rs h
    by_cases hle : cur.leB fin = true
    · by_cases hmx : cur.date = dateMax
      · simp [loopGo, hle, addDayChecked, hmx] at h
      · have h1 : dayBlocks fs cur.date = [] := by
          unfold dayBlocks
          rw [hnone cur.date hcv (leB_refl cur.date)
            (date_leB_of_leB cur fin hle)]
        rcases hrec : loopGo fs fin k (addDay cur) with e | rs2
        · simp [loopGo, hle, addDayChecked, hmx, hrec] at h
        · have h2 : rs2 = [] := by
            apply ih (addDay cur) (nextDate_valid cur.date hcv) ?_ rs2 hrec
            intro d hdv hd1 hd2
            exact hnone d hdv
              (leB_trans cur.date (nextDate cur.date) d (leB_nextDate cur.date) hd1)
              hd2
          simp [loopGo, hle, addDayChecked, hmx, hrec, h1, h2] at h
          exact h
    · simp [loopGo, hle] at h
      exact h

/-- The scan consults the filesystem only at canonical per-day paths. -/
theorem loopGo_congr (fs1 fs2 : FS) (fin : DateTime)
    (h : ∀ d : Date, fs1 (canonicalPath d) = fs2 (canonicalPath d)) :
    ∀ (fuel : ℕ) (cur : DateTime),
    loopGo fs1 fin fuel cur = loopGo fs2 fin fuel cur := by
  intro fuel
  induction fuel with
  | zero => intro cur; rfl
  | succ k ih =>
    intro cur
    have hd : dayBlocks fs1 cur.date = dayBlocks fs2 cur.date := by
      unfold dayBlocks
      rw [h cur.date]
    simp only [loopGo]
    by_cases hle : cur.leB fin = true
    · rw [if_pos hle, if_pos hle]
      cases had : addDayChecked cur with
      | error e => rfl
      | ok next =>
        show (match loopGo fs1 fin k next with
            | Except.error e => Except.error e
            | Except.ok rest => Except.ok (dayBlocks fs1 cur.date ++ rest)) =
          match loopGo fs2 fin k next with
          | Except.error e => Except.error e
          | Except.ok rest => Except.ok (dayBlocks fs2 cur.date ++ rest)
        rw [ih next, hd]
    · rw [if_neg hle, if_neg hle]



theorem digitChar_inj_fin :
    ∀ a b : Fin 10, Nat.digitChar a.val = Nat.digitChar b.val → a = b := by
  decide

theorem digitChar_inj (a b : ℕ) (ha : a < 10) (hb : b < 10)
    (h : Nat.digitChar a = Nat.digitChar b) : a = b :=
  congrArg Fin.val (digitChar_inj_fin ⟨a, ha⟩ ⟨b, hb⟩ h)

theorem pad2_inj (a b : ℕ) (ha : a < 100) (hb : b < 100)
    (h : pad2 a = pad2 b) : a = b := by
  simp only [pad2, List.cons.injEq, and_true] at h
  obtain ⟨h1, h2⟩ := h
  have e1 := digitChar_inj _ _ (by omega) (by omega) h1
  have e2 := digitChar_inj _ _ (by omega) (by omega) h2
  omega

theorem pad4_inj (a b : ℕ) (ha : a < 10000) (hb : b < 10000)
    (h : pad4 a = pad4 b) : a = b := by
  simp only [pad4, List.cons.injEq, and_true] at h
  obtain ⟨h1, h2, h3, h4⟩ := h
  have e1 := digitChar_inj _ _ (by omega) (by omega) h1
  have e2 := digitChar_inj _ _ (by omega) (by omega) h2
  have e3 := digitChar_inj _ _ (by omega) (by omega) h3
  have e4 := digitChar_inj _ _ (by omega) (by omega) h4
  omega

theorem renderYMD_inj (a b : Date) (hav : a.Valid) (hbv : b.Valid)
    (ha : a.y < 10000) (hb : b.y < 10000)
    (h : renderYMD a = renderYMD b) : a = b := by
  obtain ⟨hay, ham1, ham2, had1, had2⟩ := hav
  obtain ⟨hby, hbm1, hbm2, hbd1, hbd2⟩ := hbv
  have hda := daysInMonth_le a.y a.m
  have hdb := daysInMonth_le b.y b.m
  simp only [renderYMD, pad4, pad2, List.cons_append, List.nil_append,
    List.cons.injEq, and_true, true_and] at h
  obtain ⟨y1, y2, y3, y4, m1, m2, d1, d2⟩ := h
  have ey1 := digitChar_inj _ _ (by omega) (by omega) y1
  have ey2 := digitChar_inj _ _ (by omega) (by omega) y2
  have ey3 := digitChar_inj _ _ (by omega) (by omega) y3
  have ey4 := digitChar_inj _ _ (by omega) (by omega) y4
  have em1 := digitChar_inj _ _ (by omega) (by omega) m1
  have em2 := digitChar_inj _ _ (by omega) (by omega) m2
  have ed1 := digitChar_inj _ _ (by omega) (by omega) d1
  have ed2 := digitChar_inj _ _ (by omega) (by omega) d2
  have hy : a.y = b.y := by omega
  have hm : a.m = b.m := by omega
  have hd : a.d = b.d := by omega
  cases a
  cases b
  simp only [Date.mk.injEq]
  exact ⟨hy, hm, hd⟩

theorem canonicalPath_inj (a b : Date) (hav : a.Valid) (hbv : b.Valid)
    (ha : a.y < 10000) (hb : b.y < 10000)
    (h : canonicalPath a = canonicalPath b) : a = b := by
  simp only [canonicalPath, List.cons.injEq, and_true, true_and, String.ext_iff,
    String.data_append, List.append_assoc] at h
  obtain ⟨hy, hm, hname⟩ := h
  have h1 := List.append_cancel_left hname
  have h2 := List.append_cancel_right h1
  exact renderYMD_inj a b hav hbv ha hb h2

theorem leB_year_le (a b : Date) (h : Date.leB a b = true) : a.y ≤ b.y := by
  rcases a with ⟨ay, am, ad⟩
  rcases b with ⟨by_, bm, bd⟩
  show ay ≤ by_
  simp only [Date.ltB, Date.leB, Date.mk.injEq, Bool.or_eq_true,
    Bool.and_eq_true, beq_iff_eq, decide_eq_true_eq] at h
  omega

/-- C1 (amended): a start or end string that does not parse under
`strptime("%Y-%m-%d")` does NOT degrade to an empty dataset — the
`ValueError` of the date normalizer propagates out of `corrections_loader`,
whichever slot the bad string occupies; only the timezone-validation step
is guarded by a try/except. -/
theorem C1_amended :
    (∀ (fs : FS) (s : String) (b : FechaInput), strptimeYMD s = none →
      corrections_loader fs (.str s) b = .error .valueError) ∧
    (∀ (fs : FS) (a : FechaInput) (s : String) (t : DateTime),
      _asegurar_datetime a = .ok t → strptimeYMD s = none →
      corrections_loader fs a (.str s) = .error .valueError) := by
  constructor
  · intro fs s b h
    simp [corrections_loader, _asegurar_datetime, h]
  · intro fs a s t ha h
    unfold corrections_loader
    rw [ha]
    simp [_asegurar_datetime, h]

theorem C1_amended_witness :
    (strptimeYMD "2022/07/10" = none ∧
      corrections_loader (fun _ => none) (.str "2022/07/10") (.str "2022-07-10") =
        .error .valueError) ∧
    (_asegurar_datetime (.str "2022-07-10") = .ok ⟨⟨2022, 7, 10⟩, 0⟩ ∧
      strptimeYMD "2022/07/11" = none ∧
      corrections_loader (fun _ => none) (.str "2022-07-10") (.str "2022/07/11") =
        .error .valueError) :=
  ⟨⟨by decide,
      C1_amended.1 (fun _ => none) "2022/07/10" (.str "2022-07-10") (by decide)⟩,
    ⟨by decide, by decide,
      C1_amended.2 (fun _ => none) (.str "2022-07-10") "2022/07/11"
        ⟨⟨2022, 7, 10⟩, 0⟩ (by decide) (by decide)⟩⟩

/-- C2 (amended): discovery is not recursive.  The loader consults exactly
the canonical path `data/YYYY/MM/corrections_report_YYYY-MM-DD.html` for
each day of the range: its result depends only on the filesystem's values
at canonical per-day paths, so a matching file at any other depth is never
discovered or processed. -/
theorem C2_amended (fs1 fs2 : FS) (a b : FechaInput)
    (h : ∀ d : Date, fs1 (canonicalPath d) = fs2 (canonicalPath d)) :
    corrections_loader fs1 a b = corrections_loader fs2 a b := by
  unfold corrections_loader
  cases _asegurar_datetime a with
  | error e => rfl
  | ok s =>
    cases _asegurar_datetime b with
    | error e => rfl
    | ok f =>
      have hb : loaderBlocks fs1 s f = loaderBlocks fs2 s f := by
        unfold loaderBlocks
        exact loopGo_congr fs1 fs2 f h (loopFuel s f) s
      simp only [hb]

theorem C2_amended_witness :
    (∀ d : Date, fsShallow (canonicalPath d) = (fun _ => none) (canonicalPath d)) ∧
    corrections_loader fsShallow (.str "2022-07-10") (.str "2022-07-10") =
      corrections_loader (fun _ => none) (.str "2022-07-10") (.str "2022-07-10") := by
  have hp : ∀ d : Date, fsShallow (canonicalPath d) = (fun _ => none) (canonicalPath d) := by
    intro d
    unfold fsShallow
    rw [if_neg]
    intro hcon
    simp [canonicalPath] at hcon
  exact ⟨hp, C2_amended fsShallow (fun _ => none) (.str "2022-07-10")
    (.str "2022-07-10") hp⟩

/-- C4 (amended): a file dated strictly outside `[start, end]` never
appears; and provided the range ends strictly before `datetime.max`'s date
`9999-12-31`, a file dated exactly at `start` always appears when
`start <= end`, and a file dated exactly at `end` appears when the start's
time of day does not exceed the end's (always true for string or date
inputs, which normalize to midnight — but violable by datetime inputs).
When the range does reach `9999-12-31`, the day loop's unguarded
`+= timedelta(days=1)` raises `OverflowError` and no content appears at
all. -/
theorem C4_amended (start fin : DateTime) (hs : start.date.Valid)
    (hf : fin.date.Valid) (hle : start.leB fin = true) :
    (Date.ltB fin.date dateMax = true →
      ∀ fs : FS, ∃ post,
        loaderBlocks fs start fin = .ok (dayBlocks fs start.date ++ post)) ∧
    (Date.ltB fin.date dateMax = true → start.tod ≤ fin.tod →
      ∀ fs : FS, ∃ pre post,
        loaderBlocks fs start fin = .ok (pre ++ dayBlocks fs fin.date ++ post)) ∧
    (∀ (E : Date) (c : FileContent), E.Valid → E.y < 10000 → fin.date.y < 10000 →
      (Date.ltB E start.date = true ∨ Date.ltB fin.date E = true) →
      ∀ rs, loaderBlocks (singleFs E c) start fin = .ok rs → rs = []) ∧
    (fin.date = dateMax → start.tod ≤ fin.tod →
      ∀ fs : FS, loaderBlocks fs start fin = .error .overflowError) := by
  have hdle := date_leB_of_leB start fin hle
  have hrdle := toRD_le_of_leB start.date fin.date hs hf hdle
  refine ⟨?_, ?_, ?_, ?_⟩
  · intro hmax fs
    apply loopGo_first
    · unfold loopFuel; omega
    · exact hle
    · exact hmax
  · intro hmax htod fs
    apply loopGo_reaches fs fin hmax (loopFuel start fin) start hs hf ?_ hle htod
    unfold loopFuel
    omega
  · intro E c hEv hEy hfy hout
    apply loopGo_empty _ _ _ _ hs
    intro d hdv hd1 hd2
    unfold singleFs
    rw [if_neg]
    intro hpath
    have hdy : d.y ≤ fin.date.y := leB_year_le d fin.date hd2
    have hEd : d = E := canonicalPath_inj d E hdv hEv (by omega) hEy hpath
    rcases hout with hlt | hlt
    · have hne := ltB_ne E d (ltB_leB_trans E start.date d hlt hd1)
      exact hne hEd.symm
    · have hne := ltB_ne d E (leB_ltB_trans d fin.date E hd2 hlt)
      exact hne hEd
  · intro hfd htod fs
    apply loopGo_overflow fs fin hfd (loopFuel start fin) start hs ?_ hle htod
    unfold loopFuel
    omega

theorem C4_amended_witness :
    ((⟨⟨2022, 7, 10⟩, 0⟩ : DateTime).date.Valid ∧
      (⟨⟨2022, 7, 11⟩, 0⟩ : DateTime).date.Valid ∧
      DateTime.leB ⟨⟨2022, 7, 10⟩, 0⟩ ⟨⟨2022, 7, 11⟩, 0⟩ = true) ∧
    ((Date.ltB ⟨2022, 7, 11⟩ dateMax = true →
        ∀ fs : FS, ∃ post,
          loaderBlocks fs ⟨⟨2022, 7, 10⟩, 0⟩ ⟨⟨2022, 7, 11⟩, 0⟩ =
            .ok (dayBlocks fs ⟨2022, 7, 10⟩ ++ post)) ∧
      (Date.ltB ⟨2022, 7, 11⟩ dateMax = true →
        (⟨⟨2022, 7, 10⟩, 0⟩ : DateTime).tod ≤ (⟨⟨2022, 7, 11⟩, 0⟩ : DateTime).tod →
        ∀ fs : FS, ∃ pre post,
          loaderBlocks fs ⟨⟨2022, 7, 10⟩, 0⟩ ⟨⟨2022, 7, 11⟩, 0⟩ =
            .ok (pre ++ dayBlocks fs ⟨2022, 7, 11⟩ ++ post)) ∧
      (∀ (E : Date) (c : FileContent), E.Valid → E.y < 10000 → (2022 : ℕ) < 10000 →
        (Date.ltB E ⟨2022, 7, 10⟩ = true ∨ Date.ltB ⟨2022, 7, 11⟩ E = true) →
        ∀ rs, loaderBlocks (singleFs E c) ⟨⟨2022, 7, 10⟩, 0⟩ ⟨⟨2022, 7, 11⟩, 0⟩ =
          .ok rs → rs = []) ∧
      ((⟨2022, 7, 11⟩ : Date) = dateMax →
        (⟨⟨2022, 7, 10⟩, 0⟩ : DateTime).tod ≤ (⟨⟨2022, 7, 11⟩, 0⟩ : DateTime).tod →
        ∀ fs : FS, loaderBlocks fs ⟨⟨2022, 7, 10⟩, 0⟩ ⟨⟨2022, 7, 11⟩, 0⟩ =
          .error .overflowError)) :=
  ⟨⟨by decide, by decide, by decide⟩,
    C4_amended ⟨⟨2022, 7, 10⟩, 0⟩ ⟨⟨2022, 7, 11⟩, 0⟩ (by decide) (by decide) (by decide)⟩

/-- A flat axis's hashable labels are its labels. -/
theorem cells_flat (labels : List Cell) : (Cols.flat labels).cells = labels := by
  show List.map (labelCell 1) (labels.map (fun c => [c])) = labels
  induction labels with
  | nil => rfl
  | cons a rest ih =>
    simp only [List.map_cons]
    rw [ih]
    rfl

/-- Inversion of `droplevel(0, axis=1)` on success: the column axis had at
least two levels, and the result keeps the remaining ones. -/
theorem droplevel0_ok (c c1 : DF) (h : c.droplevel0 = .ok c1) :
    2 ≤ c.cols.levels ∧
      c1 = DF.mk c.index ⟨c.cols.levels - 1, c.cols.ls.map List.tail⟩ c.data := by
  unfold DF.droplevel0 at h
  split at h
  · exact absurd h (by simp)
  · rename_i hlv
    refine ⟨by omega, ?_⟩
    simp only [Except.ok.injEq] at h
    exact h.symm

/-- Inversion of the pair processor on success: the correction table had a
multi-level header and a nonzero row count, the selected projection carried
exactly one `Timestamp` column and at least one row, and the block is the
three-way horizontal concatenation. -/
theorem procPair_ok_some (m c : DF) (h3s : List String) (b : DF)
    (h : procPair m c h3s = .ok (some b)) :
    ∃ k,
      2 ≤ c.cols.levels ∧
      c.nrows ≠ 0 ∧
      (m.transpose.selectCols
        [Cell.str "Timestamp", Cell.str "Delay line number"]).cols.posOf
          (Cell.str "Timestamp") = [k] ∧
      ((m.transpose.selectCols
        [Cell.str "Timestamp", Cell.str "Delay line number"]).coerceColAt
          k).emptyB = false ∧
      b = concatAxis1
        [((m.transpose.selectCols
            [Cell.str "Timestamp", Cell.str "Delay line number"]).coerceColAt
              k).repeatReset c.nrows,
          ⟨rangeCells c.nrows, .flat [Cell.str "Tunnel Relative Humidity"],
            List.replicate c.nrows [humCell h3s]⟩,
          (DF.mk c.index ⟨c.cols.levels - 1, c.cols.ls.map List.tail⟩
            c.data).railResetIndex] := by
  simp only [procPair] at h
  split at h
  · exact absurd h (by simp)
  · split at h
    · rename_i hn hmem
      split at h
      · exact absurd h (by simp)
      · rename_i k hpos
        split at h
        · exact absurd h (by simp)
        · rename_i hemp
          split at h
          · exact absurd h (by simp)
          · rename_i c1 hdrop
            obtain ⟨hlv, hc1⟩ := droplevel0_ok c c1 hdrop
            simp only [Except.ok.injEq, Option.some.injEq] at h
            refine ⟨k, hlv, hn, hpos, by simpa using hemp, ?_⟩
            rw [← h, hc1]
      · exact absurd h (by simp)
    · exact absurd h (by simp)

/-- C5 (amended): `droplevel(0, axis=1)` is applied unconditionally, so a
pair whose correction table carries a single-level header raises inside
the per-pair handler and contributes zero rows; every pair that does
contribute had a multi-level (two or more level) header.  Its block
carries the explicit index column `reset_index` inserts, labelled by the
scalar `Rail number` when the original header had exactly two levels and
by the padded tuple `("Rail number", "", …)` when it had more — a
three-level pair does contribute. -/
theorem C5_amended :
    (∀ (m c : DF) (h3s : List String),
      c.cols.levels ≤ 1 → pairBlocks (m, c) h3s = []) ∧
    (∀ (m c : DF) (h3s : List String) (b : DF),
      procPair m c h3s = .ok (some b) →
      2 ≤ c.cols.levels ∧
      labelCell (c.cols.levels - 1) (railLabel (c.cols.levels - 1)) ∈
        b.cols.cells ∧
      (c.cols.levels = 2 → Cell.str "Rail number" ∈ b.cols.cells)) ∧
    pairBlocks (metaOK, corr3) [] ≠ [] := by
  refine ⟨?_, ?_, by decide⟩
  · intro m c h3s hlv
    unfold pairBlocks
    cases hp : procPair m c h3s with
    | error e => rfl
    | ok o =>
      cases o with
      | none => rfl
      | some b =>
        obtain ⟨k, hlv2, _⟩ := procPair_ok_some m c h3s b hp
        omega
  · intro m c h3s b hp
    obtain ⟨k, hlv, hn, hpos, hemp, hb⟩ := procPair_ok_some m c h3s b hp
    have hmem : labelCell (c.cols.levels - 1) (railLabel (c.cols.levels - 1)) ∈
        b.cols.cells := by
      rw [hb]
      simp only [concatAxis1]
      rw [cells_flat]
      simp only [List.map_cons, List.map_nil, List.flatten_cons,
        List.flatten_nil, List.append_nil, DF.railResetIndex, Cols.cells]
      refine List.mem_append_right _ (List.mem_append_right _ ?_)
      exact List.mem_cons_self _ _
    refine ⟨hlv, hmem, ?_⟩
    intro h2
    have hrail : labelCell (c.cols.levels - 1) (railLabel (c.cols.levels - 1)) =
        Cell.str "Rail number" := by
      rw [h2]
      rfl
    rwa [hrail] at hmem

theorem pairUp_append : ∀ (A B : List DF), 2 ∣ A.length →
    pairUp (A ++ B) = pairUp A ++ pairUp B
  | [], B, _ => by simp [pairUp]
  | [a], B, h => by
    exfalso
    have h1 : List.length [a] = 1 := rfl
    omega
  | a :: b :: rest, B, h => by
    have hr : 2 ∣ rest.length := by
      simp at h
      omega
    simp [pairUp, pairUp_append rest B hr]

/-- C7: a table pair whose transposed metadata table lacks a `Timestamp`
or a `Delay line number` column is skipped with zero contributed rows and
no error, and a pair contributing nothing (skip or caught exception) leaves
the sibling pairs' contributions unchanged. -/
theorem C7_pair_isolation :
    (∀ (m c : DF) (h3s : List String),
      (m.transpose.cols.memB (Cell.str "Timestamp") &&
        m.transpose.cols.memB (Cell.str "Delay line number")) = false →
      procPair m c h3s = .ok none) ∧
    (∀ (A B : List DF) (m c : DF) (h3s : List String),
      2 ∣ A.length → pairBlocks (m, c) h3s = [] →
      _procesar_tablas (A ++ m :: c :: B) h3s =
        _procesar_tablas A h3s ++ _procesar_tablas B h3s) := by
  constructor
  · intro m c h3s hmem
    simp [procPair, hmem]
  · intro A B m c h3s hA hpb
    unfold _procesar_tablas
    have hcons : m :: c :: B = [m, c] ++ B := rfl
    rw [hcons, ← List.append_assoc, pairUp_append (A ++ [m, c]) B
      (by simp; omega), pairUp_append A [m, c] hA]
    have hmc : pairUp [m, c] = [(m, c)] := rfl
    simp [hmc, hpb]

theorem getD_replicate_lt {α : Type} (a d : α) (n i : ℕ) (h : i < n) :
    (List.replicate n a).getD i d = a := by
  rw [List.getD_eq_getElem?_getD]
  simp [List.getElem?_replicate, h]

theorem flatten_replicate_single {α : Type} :
    ∀ (n : ℕ) (x : α), (List.replicate n [x]).flatten = List.replicate n x
  | 0, x => rfl
  | n + 1, x => by
    simp [List.replicate_succ, flatten_replicate_single n x]

theorem flatten_replicate_length {α : Type} (n : ℕ) (l : List α) :
    ((List.replicate n l).flatten).length = n * l.length := by
  induction n with
  | zero => simp
  | succ k ih =>
    simp [List.replicate_succ, ih]
    ring

/-- C3 (amended): for a pair processed without being skipped, the output
block's row count equals the correction table's row count TIMES the row
count of the transposed metadata projection (the metadata table's column
count); when that projection has a single row — the shape the reports
carry — this is exactly `n`, and every block row starts with that very
projection row (its `Timestamp` entry coerced): the metadata-derived
prefix is identical on every row. -/
theorem C3_amended (m c : DF) (h3s : List String) (b : DF)
    (hwf : c.index.length = c.data.length)
    (h : procPair m c h3s = .ok (some b)) :
    b.data.length = c.data.length * m.cols.length ∧
    (m.cols.length = 1 →
      ∃ k r,
        (m.transpose.selectCols
          [Cell.str "Timestamp", Cell.str "Delay line number"]).cols.posOf
            (Cell.str "Timestamp") = [k] ∧
        (m.transpose.selectCols
          [Cell.str "Timestamp", Cell.str "Delay line number"]).data = [r] ∧
        ∀ row ∈ b.data, ∃ rest, row = setTimestampAt k r ++ rest) := by
  obtain ⟨k, hlv, hn, hpos, hemp, hb⟩ := procPair_ok_some m c h3s b h
  have hnr : c.nrows = c.index.length := rfl
  have hcl : m.cols.length = m.cols.cells.length := rfl
  have hT2len :
      ((m.transpose.selectCols
        [Cell.str "Timestamp", Cell.str "Delay line number"]).coerceColAt
          k).data.length = m.cols.cells.length := by
    simp [DF.coerceColAt, DF.selectCols, DF.transpose]
  have hSlen :
      (m.transpose.selectCols
        [Cell.str "Timestamp", Cell.str "Delay line number"]).data.length =
        m.cols.cells.length := by
    simp [DF.selectCols, DF.transpose]
  have hCL1 : 1 ≤ m.cols.cells.length := by
    by_contra hcon
    have h0 : m.cols.cells.length = 0 := by omega
    have hT : ((m.transpose.selectCols
        [Cell.str "Timestamp", Cell.str "Delay line number"]).coerceColAt
          k).emptyB = true := by
      simp [DF.emptyB, DF.nrows, DF.coerceColAt, DF.selectCols,
        DF.transpose, h0]
    rw [hT] at hemp
    exact Bool.noConfusion hemp
  have hmul : c.nrows ≤ c.nrows * m.cols.cells.length := by
    calc c.nrows = c.nrows * 1 := (Nat.mul_one c.nrows).symm
      _ ≤ c.nrows * m.cols.cells.length := Nat.mul_le_mul_left c.nrows hCL1
  constructor
  · rw [hb]
    simp only [concatAxis1, List.map_cons, List.map_nil, List.length_map,
      List.length_range, List.foldr_cons, List.foldr_nil]
    simp only [DF.repeatReset, DF.railResetIndex]
    rw [flatten_replicate_length, hT2len]
    simp only [List.length_replicate, List.length_zipWith]
    rw [hcl, ← hwf, ← hnr]
    omega
  · intro hL
    have hL2 : m.cols.cells.length = 1 := by rw [← hcl]; exact hL
    rw [hL2] at hSlen
    obtain ⟨r, hr⟩ := List.length_eq_one.mp hSlen
    have hr0 :
        ((m.transpose.selectCols
          [Cell.str "Timestamp", Cell.str "Delay line number"]).coerceColAt
            k).data = [setTimestampAt k r] := by
      simp [DF.coerceColAt, hr]
    refine ⟨k, r, hpos, hr, ?_⟩
    intro row hrow
    rw [hb] at hrow
    simp only [concatAxis1, List.map_cons, List.map_nil, List.mem_map,
      List.mem_range, List.foldr_cons, List.foldr_nil] at hrow
    obtain ⟨i, hi, hfi⟩ := hrow
    have hA1 :
        (((m.transpose.selectCols
          [Cell.str "Timestamp", Cell.str "Delay line number"]).coerceColAt
            k).repeatReset c.nrows).data =
          List.replicate c.nrows (setTimestampAt k r) := by
      simp only [DF.repeatReset]
      rw [hr0, flatten_replicate_single]
    have hin : i < c.nrows := by
      simp only [DF.repeatReset, DF.railResetIndex, List.length_replicate,
        List.length_zipWith] at hi
      rw [hr0] at hi
      rw [flatten_replicate_single] at hi
      simp only [List.length_replicate] at hi
      omega
    simp only [List.flatten_cons, List.flatten_nil, List.append_nil] at hfi
    rw [hA1, getD_replicate_lt _ _ _ _ hin] at hfi
    exact ⟨_, hfi.symm⟩



/-- C6 counterexample: `strptime("%Y-%m-%d")` accepts `"2022-7-1"`, which
does not match the exact 4-digit/2-digit/2-digit pattern, so "raises
ValueError iff the string does not match the pattern" fails in the
only-if direction. -/
theorem C6_counterexample :
    specPatternYMD "2022-7-1" = false ∧
    _asegurar_datetime (.str "2022-7-1") = .ok ⟨⟨2022, 7, 1⟩, 0⟩ := by decide

/-- CPython's `strptime` accepts Unicode decimal digits where its format
regex uses `\d`: the Arabic-Indic year `"٢٠٢٢-07-10"` (digits at code
points 1634/1632) parses to 2022-07-10, and day `"1٢"` to 12, while the
ASCII-literal month alternatives reject Unicode month digits. -/
theorem strptimeYMD_unicode :
    strptimeYMD (String.mk [Char.ofNat 1634, Char.ofNat 1632, Char.ofNat 1634,
      Char.ofNat 1634, '-', '0', '7', '-', '1', '0']) = some ⟨2022, 7, 10⟩ ∧
    strptimeYMD (String.mk ['2', '0', '2', '2', '-', '0', '7', '-', '1',
      Char.ofNat 1634]) = some ⟨2022, 7, 12⟩ ∧
    strptimeYMD (String.mk ['2', '0', '2', '2', '-', Char.ofNat 1632,
      Char.ofNat 1639, '-', '1', '0']) = none := by decide

/-- C6 (amended): the normalizer returns a date-with-time (midnight
default) for parseable strings, datetimes and dates; it raises `ValueError`
exactly for strings rejected by `strptime("%Y-%m-%d")` — a format that is
laxer than the literal ASCII 4-2-2-digit pattern: it also accepts
one-digit month and day fields, any Unicode decimal digits as the four
year digits, and a Unicode decimal digit as the second day digit of days
10 to 29 — and `TypeError` exactly for every other input shape. -/
theorem C6_amended (f : FechaInput) :
    (_asegurar_datetime f = .error .valueError ↔
      ∃ s, f = .str s ∧ strptimeYMD s = none) ∧
    (_asegurar_datetime f = .error .typeError ↔
      (f = .objWithStrftime ∨ f = .objOther)) ∧
    (∀ s d, f = .str s → strptimeYMD s = some d →
      _asegurar_datetime f = .ok ⟨d, 0⟩) ∧
    (∀ t, f = .dt t → _asegurar_datetime f = .ok t) ∧
    (∀ d, f = .date d → _asegurar_datetime f = .ok ⟨d, 0⟩) := by
  cases f with
  | str s =>
    cases hs : strptimeYMD s with
    | none =>
      simp [_asegurar_datetime, hs]
      intro s1 d hss
      subst hss
      rw [hs]
      simp
    | some d =>
      simp [_asegurar_datetime, hs]
      intro s1 d1 hss hs1
      subst hss
      rw [hs] at hs1
      exact Option.some.inj hs1
  | dt t => simp [_asegurar_datetime]
  | date d => simp [_asegurar_datetime]
  | objWithStrftime => simp [_asegurar_datetime]
  | objOther => simp [_asegurar_datetime]



/-- C1 counterexample: a start string not matching `YYYY-MM-DD` makes
`corrections_loader` raise `ValueError` from the date normalizer instead of
returning an empty dataset. -/
theorem C1_counterexample :
    corrections_loader (fun _ => none) (.str "not-a-date") (.str "2022-07-10") =
      .error .valueError := by decide

/-- C2 counterexample: a file matching the naming contract, dated inside the
range and holding a valid pair, placed directly under `data/` rather than at
the per-day canonical depth, is never discovered: the loader returns the
empty dataset even though the file's content processes to a nonempty block
list. -/
theorem C2_counterexample :
    corrections_loader fsShallow (.str "2022-07-10") (.str "2022-07-10") =
      .ok emptyDF ∧
    _procesar_tablas goodFile.tables goodFile.h3s ≠ [] := by decide

/-- C3 counterexample: a pair processed without being skipped whose metadata
table carries two value columns yields a block of two rows from a one-row
correction table. -/
theorem C3_counterexample :
    (procPair metaWide corr1 []).map (fun o => o.map (fun b => b.data.length)) =
      .ok (some 2) ∧
    corr1.nrows = 1 := by decide

/-- C4 counterexample: with a datetime start carrying a noon time of day and
a string end, the file dated exactly at the end bound is skipped (the loader
returns the empty dataset), although with midnight-normalized bounds the
same file contributes. -/
theorem C4_counterexample :
    corrections_loader (singleFs ⟨2022, 7, 11⟩ goodFile)
        (.dt ⟨⟨2022, 7, 10⟩, 43200⟩) (.str "2022-07-11") = .ok emptyDF ∧
    corrections_loader (singleFs ⟨2022, 7, 11⟩ goodFile)
        (.str "2022-07-10") (.str "2022-07-11") ≠ .ok emptyDF := by decide

/-- C5 counterexample: a pair whose correction table has a single-level
header contributes zero rows — `droplevel(0, axis=1)` raises `ValueError`,
caught per pair — although the same pair with a two-level header
contributes. -/
theorem C5_counterexample :
    _procesar_tablas [metaOK, corrFlat] [] = [] ∧
    procPair metaOK corrFlat [] = .error .valueError ∧
    _procesar_tablas [metaOK, corrOK] [] ≠ [] := by decide

/-- C3 witness: the amended row-count and identical-prefix law evaluated
on the typical pair. -/
theorem C3_amended_witness :
    (corrOK.index.length = corrOK.data.length ∧
      procPair metaOK corrOK ["Relative humidity: 45.3%"] = .ok (some c3Block)) ∧
    (c3Block.data.length = corrOK.data.length * metaOK.cols.length ∧
      (metaOK.cols.length = 1 →
        ∃ k r,
          (metaOK.transpose.selectCols
            [Cell.str "Timestamp", Cell.str "Delay line number"]).cols.posOf
              (Cell.str "Timestamp") = [k] ∧
          (metaOK.transpose.selectCols
            [Cell.str "Timestamp", Cell.str "Delay line number"]).data = [r] ∧
          ∀ row ∈ c3Block.data, ∃ rest, row = setTimestampAt k r ++ rest)) :=
  ⟨⟨by decide, by decide⟩,
    C3_amended metaOK corrOK ["Relative humidity: 45.3%"] c3Block (by decide)
      (by decide)⟩

/-- C5 witness: the amended single-level-header law evaluated on a concrete
flat-header pair. -/
theorem C5_amended_witness :
    corrFlat.cols.levels ≤ 1 ∧
    pairBlocks (metaOK, corrFlat) [] = [] :=
  ⟨by decide, C5_amended.1 metaOK corrFlat [] (by decide)⟩

/-- C6 witness: the amended normalizer law evaluated on a string that parses
under the lenient format and on one that does not. -/
theorem C6_amended_witness :
    _asegurar_datetime (.str "2022-13-05") = .error .valueError :=
  ((C6_amended (.str "2022-13-05")).1).mpr ⟨"2022-13-05", rfl, by decide⟩

/-- C7 witness: pair isolation evaluated concretely — a pair lacking the
`Delay line number` column is skipped while the sibling valid pair still
contributes. -/
theorem C7_pair_isolation_witness :
    ((metaNoDL.transpose.cols.memB (Cell.str "Timestamp") &&
        metaNoDL.transpose.cols.memB (Cell.str "Delay line number")) = false ∧
      procPair metaNoDL corrOK [] = .ok none) ∧
    (2 ∣ ([] : List DF).length ∧
      pairBlocks (metaNoDL, corrOK) [] = [] ∧
      _procesar_tablas ([] ++ metaNoDL :: corrOK :: [metaOK, corrOK]) [] =
        _procesar_tablas [] [] ++ _procesar_tablas [metaOK, corrOK] []) :=
  ⟨⟨by decide, C7_pair_isolation.1 metaNoDL corrOK [] (by decide)⟩,
    ⟨by decide, by decide,
      C7_pair_isolation.2 [] [metaOK, corrOK] metaNoDL corrOK [] (by decide)
        (by decide)⟩⟩

end DeliriumViz
